import Mathlib

/-!
The telegraf logging adapter (`logger/logger.go`).

A shallow embedding of `telegrafLog.Write`, `prependTimeFormat`,
`newTelegrafWriter` and `SetupLogging`, together with models of the library
calls they make (`regexp`, `time`, `os`, `log`, `wlog`).
-/

namespace Logger

/-- A Go byte slice. -/
abbrev Bytes := List UInt8

/-- The bytes of a string constant (all constants of the program are ASCII). -/
def bytes (s : String) : Bytes := s.toList.map (fun c => c.toNat.toUInt8)

/-! ## `regexp`: the fragment of RE2 syntax used by the program

A pattern is parsed under Go's default flags (no `(?m)`, no `(?s)`), so `^`
is the beginning of the text, not of a line.  Pattern characters are ASCII;
an ASCII rune is one byte of the input and no byte of a multi-byte or invalid
UTF-8 sequence is below 0x80, so matching is done on bytes. -/

/-- Parsed regular expressions. -/
inductive Regexp where
  | emptyMatch
  | beginText
  | literal (c : UInt8)
  | charClass (cs : List UInt8)
  | concat (r₁ r₂ : Regexp)
  deriving Repr, DecidableEq

/-- Code points with a special meaning in a pattern, outside a class:
`\ . + * ? ( ) | [ ] { } ^ $`. -/
def Regexp.isMeta (c : Nat) : Bool :=
  [0x5C, 0x2E, 0x2B, 0x2A, 0x3F, 0x28, 0x29, 0x7C, 0x5B, 0x5D, 0x7B, 0x7D, 0x5E, 0x24].contains c

/-- The members of a bracket class up to the closing `]` (0x5D), and the rest
of the pattern.  Only plain ASCII members are accepted: no range (`-`, 0x2D),
negation (`^`, 0x5E), escape (`\`, 0x5C) or nested `[` (0x5B). -/
def Regexp.parseClass : List Nat → Option (List UInt8 × List Nat)
  | [] => none
  | c :: rest =>
    if c = 0x5D then some ([], rest)
    else if c = 0x2D ∨ c = 0x5E ∨ c = 0x5C ∨ c = 0x5B ∨ 128 ≤ c then none
    else
      match Regexp.parseClass rest with
      | some (cs, rest') => some (c.toUInt8 :: cs, rest')
      | none => none

/-- The items of a pattern, in order: `^` (0x5E), a bracket class opened by
`[` (0x5B), or a literal character.  `none` for anything outside this
fragment. -/
def Regexp.parseItems (fuel : Nat) (p : List Nat) : Option (List Regexp) :=
  match fuel, p with
  | _, [] => some []
  | 0, _ :: _ => none
  | fuel + 1, c :: rest =>
    if c = 0x5E then (Regexp.parseItems fuel rest).map (Regexp.beginText :: ·)
    else if c = 0x5B then
      match Regexp.parseClass rest with
      | some (cs, rest') => (Regexp.parseItems fuel rest').map (Regexp.charClass cs :: ·)
      | none => none
    else if Regexp.isMeta c ∨ 128 ≤ c then none
    else (Regexp.parseItems fuel rest).map (Regexp.literal c.toUInt8 :: ·)

/-- Concatenation of a list of items. -/
def Regexp.ofItems : List Regexp → Regexp
  | [] => Regexp.emptyMatch
  | [r] => r
  | r :: rs => Regexp.concat r (Regexp.ofItems rs)

/-- The function `regexp.Compile`, on the fragment above. -/
def Regexp.Compile (pattern : String) : Option Regexp :=
  (Regexp.parseItems pattern.length (pattern.toList.map Char.toNat)).map Regexp.ofItems

/-- The function `regexp.MustCompile`: it panics when the pattern does not
parse (the program then never starts); its value is the parsed expression. -/
def Regexp.MustCompile (pattern : String) : Regexp :=
  (Regexp.Compile pattern).getD Regexp.emptyMatch

/-- The positions at which a match of `r` that starts at position `pos` of
`text` can end. -/
def Regexp.endsFrom (text : Bytes) : Regexp → Nat → List Nat
  | Regexp.emptyMatch, pos => [pos]
  | Regexp.beginText, pos => if pos = 0 then [pos] else []
  | Regexp.literal c, pos => if text.get? pos = some c then [pos + 1] else []
  | Regexp.charClass cs, pos =>
    match text.get? pos with
    | some b => if b ∈ cs then [pos + 1] else []
    | none => []
  | Regexp.concat r₁ r₂, pos =>
    (Regexp.endsFrom text r₁ pos).flatMap (Regexp.endsFrom text r₂)

/-- The method `(*Regexp).Match`: does the text contain any match of the
expression (the search is unanchored: a match may start at any position). -/
def Regexp.Match (re : Regexp) (b : Bytes) : Bool :=
  (List.range (b.length + 1)).any (fun i => !(Regexp.endsFrom b re i).isEmpty)

/-- The package variable `var prefixRegex = regexp.MustCompile("^[DIWE]!")`. -/
def prefixRegex : Regexp := Regexp.MustCompile "^[DIWE]!"

/-! ## `time`: instants, civil dates and `AppendFormat`

Model of the Go standard library's `time.Time` as far as formatting needs it:
the instant (Unix seconds and nanoseconds) and the zone in effect (its
abbreviation and its offset east of UTC in seconds). -/

/-- A value of `time.Time`. -/
structure Time where
  sec : Int
  nsec : Nat
  zone : String
  offset : Int
  deriving Repr, DecidableEq

/-- The method `Time.UTC`: the same instant with the location set to UTC. -/
def Time.UTC (t : Time) : Time := { t with zone := "UTC", offset := 0 }

/-- Days since 1970-01-01 of the local date. -/
def Time.days (t : Time) : Int := (t.sec + t.offset) / 86400

/-- Seconds since local midnight. -/
def Time.secOfDay (t : Time) : Nat := ((t.sec + t.offset) % 86400).toNat

/-- Hour of the day, 0..23. -/
def Time.Hour (t : Time) : Nat := t.secOfDay / 3600

/-- Minute of the hour, 0..59. -/
def Time.Minute (t : Time) : Nat := t.secOfDay % 3600 / 60

/-- Second of the minute, 0..59. -/
def Time.Second (t : Time) : Nat := t.secOfDay % 60

/-- Day of the week, Sunday = 0 (1970-01-01 was a Thursday). -/
def Time.Weekday (t : Time) : Nat := ((t.days + 4) % 7).toNat

/-- Day count within the 400-year cycle that starts on 0000-03-01. -/
def Time.dayOfEra (t : Time) : Nat := ((t.days + 719468) % 146097).toNat

/-- Year within the 400-year cycle, counting years from 1 March. -/
def Time.yearOfEra (t : Time) : Nat :=
  let doe := t.dayOfEra
  (doe - doe / 1460 + doe / 36524 - doe / 146096) / 365

/-- Day within the year that starts on 1 March, 0..365. -/
def Time.dayOfMarchYear (t : Time) : Nat :=
  let yoe := t.yearOfEra
  t.dayOfEra - (365 * yoe + yoe / 4 - yoe / 100)

/-- Month counted from March = 0. -/
def Time.marchMonth (t : Time) : Nat := (5 * t.dayOfMarchYear + 2) / 153

/-- Month of the year, 1..12. -/
def Time.Month (t : Time) : Nat :=
  if t.marchMonth < 10 then t.marchMonth + 3 else t.marchMonth - 9

/-- Day of the month, 1..31. -/
def Time.Day (t : Time) : Nat :=
  t.dayOfMarchYear - (153 * t.marchMonth + 2) / 5 + 1

/-- Proleptic Gregorian year. -/
def Time.Year (t : Time) : Int :=
  (t.yearOfEra : Int) + (t.days + 719468) / 146097 * 400 + (if t.Month ≤ 2 then 1 else 0)

/-- Leap years of the proleptic Gregorian calendar. -/
def isLeap (year : Int) : Bool :=
  year % 4 = 0 ∧ (year % 100 ≠ 0 ∨ year % 400 = 0)

/-- Day of the year, 1..366. -/
def Time.YearDay (t : Time) : Nat :=
  if t.Month ≤ 2 then t.dayOfMarchYear - 306 + 1
  else t.dayOfMarchYear + 59 + (if isLeap t.Year then 1 else 0) + 1

/-- ASCII digit of a value below ten. -/
def utod (d : Nat) : UInt8 := (0x30 + d % 10).toUInt8

/-- Decimal digits of `u`, most significant first, in front of `acc`. -/
def digitsAux : Nat → Nat → Bytes → Bytes
  | 0, u, acc => utod u :: acc
  | fuel + 1, u, acc =>
    if u < 10 then utod u :: acc else digitsAux fuel (u / 10) (utod u :: acc)

/-- Decimal digits of `u`, at least one. -/
def digits (u : Nat) : Bytes := digitsAux u u []

/-- The function `appendInt` of package `time`: the decimal form of `x`, zero
padded to `width`, after a minus sign (0x2D) when `x` is negative. -/
def appendInt (b : Bytes) (x : Int) (width : Nat) : Bytes :=
  let ds := digits x.natAbs
  b ++ (if x < 0 then [0x2D] else []) ++ List.replicate (width - ds.length) 0x30 ++ ds

/-- The reference-time elements of a layout (`std...` constants of package
`time`). -/
inductive Std where
  | stdLongMonth | stdMonth | stdNumMonth | stdZeroMonth
  | stdLongWeekDay | stdWeekDay
  | stdDay | stdUnderDay | stdZeroDay | stdUnderYearDay | stdZeroYearDay
  | stdHour | stdHour12 | stdZeroHour12
  | stdMinute | stdZeroMinute | stdSecond | stdZeroSecond
  | stdLongYear | stdYear
  | stdPM | stdpm
  | stdTZ
  | stdISO8601TZ | stdISO8601SecondsTZ | stdISO8601ShortTZ
  | stdISO8601ColonTZ | stdISO8601ColonSecondsTZ
  | stdNumTZ | stdNumSecondsTz | stdNumShortTZ | stdNumColonTZ | stdNumColonSecondsTZ
  | stdFracSecond0 (n : Nat) (sep : UInt8)
  | stdFracSecond9 (n : Nat) (sep : UInt8)
  deriving Repr, DecidableEq

/-- Does the slice start with the given bytes; the rest of the slice if so. -/
def stripBytes : Bytes → Bytes → Option Bytes
  | [], l => some l
  | _ :: _, [] => none
  | p :: ps, c :: l => if p = c then stripBytes ps l else none

/-- The function `startsWithLowerCase` of package `time`. -/
def startsWithLowerCase : Bytes → Bool
  | [] => false
  | c :: _ => 0x61 ≤ c ∧ c ≤ 0x7A

/-- Is the first byte a decimal digit (`isDigit(layout, j)`). -/
def startsWithDigit : Bytes → Bool
  | [] => false
  | c :: _ => 0x30 ≤ c ∧ c ≤ 0x39

/-- The first of the candidates that the slice starts with. -/
def firstMatch (l : Bytes) : List (String × Std) → Option (Std × Bytes)
  | [] => none
  | (p, std) :: rest =>
    match stripBytes (bytes p) l with
    | some suffix => some (std, suffix)
    | none => firstMatch l rest

/-- The reference-time element that starts at the head of the layout, with
the layout after it: one arm of the `switch` in `nextStdChunk`. -/
def stdChunkAt (layout : Bytes) : Option (Std × Bytes) :=
  match layout with
  | [] => none
  | c :: rest =>
    if c = 0x4A then -- J: January, Jan
      match stripBytes (bytes "January") layout, stripBytes (bytes "Jan") layout with
      | some suffix, _ => some (Std.stdLongMonth, suffix)
      | none, some suffix => if startsWithLowerCase suffix then none else some (Std.stdMonth, suffix)
      | none, none => none
    else if c = 0x4D then -- M: Monday, Mon, MST
      match stripBytes (bytes "Monday") layout, stripBytes (bytes "Mon") layout with
      | some suffix, _ => some (Std.stdLongWeekDay, suffix)
      | none, some suffix => if startsWithLowerCase suffix then none else some (Std.stdWeekDay, suffix)
      | none, none => firstMatch layout [("MST", Std.stdTZ)]
    else if c = 0x30 then -- 0: 01, 02, 03, 04, 05, 06, 002
      firstMatch layout [("01", Std.stdZeroMonth), ("02", Std.stdZeroDay),
        ("03", Std.stdZeroHour12), ("04", Std.stdZeroMinute), ("05", Std.stdZeroSecond),
        ("06", Std.stdYear), ("002", Std.stdZeroYearDay)]
    else if c = 0x31 then -- 1: 15, 1
      match stripBytes (bytes "15") layout with
      | some suffix => some (Std.stdHour, suffix)
      | none => some (Std.stdNumMonth, rest)
    else if c = 0x32 then -- 2: 2006, 2
      match stripBytes (bytes "2006") layout with
      | some suffix => some (Std.stdLongYear, suffix)
      | none => some (Std.stdDay, rest)
    else if c = 0x5F then -- _: _2, __2 (and _2006, handled by nextStdChunk)
      firstMatch layout [("_2", Std.stdUnderDay), ("__2", Std.stdUnderYearDay)]
    else if c = 0x33 then some (Std.stdHour12, rest)
    else if c = 0x34 then some (Std.stdMinute, rest)
    else if c = 0x35 then some (Std.stdSecond, rest)
    else if c = 0x50 then firstMatch layout [("PM", Std.stdPM)]
    else if c = 0x70 then firstMatch layout [("pm", Std.stdpm)]
    else if c = 0x2D then -- -070000, -07:00:00, -0700, -07:00, -07
      firstMatch layout [("-070000", Std.stdNumSecondsTz), ("-07:00:00", Std.stdNumColonSecondsTZ),
        ("-0700", Std.stdNumTZ), ("-07:00", Std.stdNumColonTZ), ("-07", Std.stdNumShortTZ)]
    else if c = 0x5A then -- Z070000, Z07:00:00, Z0700, Z07:00, Z07
      firstMatch layout [("Z070000", Std.stdISO8601SecondsTZ),
        ("Z07:00:00", Std.stdISO8601ColonSecondsTZ), ("Z0700", Std.stdISO8601TZ),
        ("Z07:00", Std.stdISO8601ColonTZ), ("Z07", Std.stdISO8601ShortTZ)]
    else if c = 0x2E ∨ c = 0x2C then -- .000 ,000 .999 ,999: fractional seconds
      match rest with
      | ch :: _ =>
        if ch = 0x30 ∨ ch = 0x39 then
          let run := rest.takeWhile (· = ch)
          let suffix := rest.dropWhile (· = ch)
          if startsWithDigit suffix then none
          else if ch = 0x39 then some (Std.stdFracSecond9 run.length c, suffix)
          else some (Std.stdFracSecond0 run.length c, suffix)
        else none
      | [] => none
    else none

/-- The function `nextStdChunk` of package `time`: the literal bytes before
the first reference-time element of the layout, the element (`none` for
Go's `0`: the layout has none), and the layout after it. -/
def nextStdChunk : Bytes → Bytes × Option Std × Bytes
  | [] => ([], none, [])
  | c :: rest =>
    match (if c = 0x5F then stripBytes (bytes "_2006") (c :: rest) else none) with
    | some suffix => ([c], some Std.stdLongYear, suffix)
    | none =>
      match stdChunkAt (c :: rest) with
      | some (std, suffix) => ([], some std, suffix)
      | none =>
        match nextStdChunk rest with
        | (pre, std, suffix) => (c :: pre, std, suffix)

/-- English month names (`Month.String`). -/
def monthName (m : Nat) : String :=
  ["January", "February", "March", "April", "May", "June", "July", "August",
    "September", "October", "November", "December"].getD (m - 1) ""

/-- English weekday names (`Weekday.String`). -/
def weekdayName (d : Nat) : String :=
  ["Sunday", "Monday", "Tuesday", "Wednesday", "Thursday", "Friday", "Saturday"].getD d ""

/-- Drop the trailing bytes equal to `c`. -/
def trimRight (c : UInt8) (b : Bytes) : Bytes := (b.reverse.dropWhile (· = c)).reverse

/-- The function `appendNano` of package `time`: the fractional second,
`n` digits after the separator, trailing zeros removed for the `9` forms. -/
def appendNano (b : Bytes) (nanosec : Nat) (trim : Bool) (n : Nat) (sep : UInt8) : Bytes :=
  if trim ∧ (n = 0 ∨ nanosec = 0) then b
  else
    let frac := (appendInt [] nanosec 9).take n
    if trim then
      let frac := trimRight 0x30 frac
      if frac = [] then b else b ++ sep :: frac
    else b ++ sep :: frac

/-- The zone offset as `+hhmm`-like text (the numeric zone arms of
`appendFormat`): `colon` puts `:` between the fields, `short` stops after
the hours, `seconds` adds the seconds field. -/
def appendZone (b : Bytes) (offset : Int) (colon short seconds : Bool) : Bytes :=
  let zone := offset.tdiv 60
  let b := if zone < 0 then b ++ [0x2D] else b ++ [0x2B]
  let zone := if zone < 0 then -zone else zone
  let absoffset := if offset.tdiv 60 < 0 then -offset else offset
  let b := appendInt b (zone.tdiv 60) 2
  let b := if colon then b ++ [0x3A] else b
  let b := if short then b else appendInt b (zone.tmod 60) 2
  if seconds then
    let b := if colon then b ++ [0x3A] else b
    appendInt b (absoffset.tmod 60) 2
  else b

/-- One arm of the `switch std & stdMask` in `appendFormat`: the text of one
reference-time element for the time `t`, appended to `b`. -/
def appendStd (t : Time) (b : Bytes) : Std → Bytes
  | Std.stdYear => appendInt b ((t.Year.natAbs : Int) % 100) 2
  | Std.stdLongYear => appendInt b t.Year 4
  | Std.stdMonth => b ++ (bytes (monthName t.Month)).take 3
  | Std.stdLongMonth => b ++ bytes (monthName t.Month)
  | Std.stdNumMonth => appendInt b t.Month 0
  | Std.stdZeroMonth => appendInt b t.Month 2
  | Std.stdWeekDay => b ++ (bytes (weekdayName t.Weekday)).take 3
  | Std.stdLongWeekDay => b ++ bytes (weekdayName t.Weekday)
  | Std.stdDay => appendInt b t.Day 0
  | Std.stdUnderDay => appendInt (if t.Day < 10 then b ++ [0x20] else b) t.Day 0
  | Std.stdZeroDay => appendInt b t.Day 2
  | Std.stdUnderYearDay =>
    appendInt (if t.YearDay < 10 then b ++ [0x20, 0x20]
      else if t.YearDay < 100 then b ++ [0x20] else b) t.YearDay 0
  | Std.stdZeroYearDay => appendInt b t.YearDay 3
  | Std.stdHour => appendInt b t.Hour 2
  | Std.stdHour12 => appendInt b (if t.Hour % 12 = 0 then 12 else t.Hour % 12 : Nat) 0
  | Std.stdZeroHour12 => appendInt b (if t.Hour % 12 = 0 then 12 else t.Hour % 12 : Nat) 2
  | Std.stdMinute => appendInt b t.Minute 0
  | Std.stdZeroMinute => appendInt b t.Minute 2
  | Std.stdSecond => appendInt b t.Second 0
  | Std.stdZeroSecond => appendInt b t.Second 2
  | Std.stdPM => b ++ (if 12 ≤ t.Hour then bytes "PM" else bytes "AM")
  | Std.stdpm => b ++ (if 12 ≤ t.Hour then bytes "pm" else bytes "am")
  | Std.stdISO8601TZ => if t.offset = 0 then b ++ [0x5A] else appendZone b t.offset false false false
  | Std.stdISO8601ColonTZ => if t.offset = 0 then b ++ [0x5A] else appendZone b t.offset true false false
  | Std.stdISO8601SecondsTZ => if t.offset = 0 then b ++ [0x5A] else appendZone b t.offset false false true
  | Std.stdISO8601ShortTZ => if t.offset = 0 then b ++ [0x5A] else appendZone b t.offset false true false
  | Std.stdISO8601ColonSecondsTZ =>
    if t.offset = 0 then b ++ [0x5A] else appendZone b t.offset true false true
  | Std.stdNumTZ => appendZone b t.offset false false false
  | Std.stdNumColonTZ => appendZone b t.offset true false false
  | Std.stdNumSecondsTz => appendZone b t.offset false false true
  | Std.stdNumShortTZ => appendZone b t.offset false true false
  | Std.stdNumColonSecondsTZ => appendZone b t.offset true false true
  | Std.stdTZ => if t.zone ≠ "" then b ++ t.zone.toUTF8.toList else appendZone b t.offset false false false
  | Std.stdFracSecond0 n sep => appendNano b t.nsec false n sep
  | Std.stdFracSecond9 n sep => appendNano b t.nsec true n sep

/-- The loop of `Time.appendFormat`: each round appends the literal bytes
before the next element and the element itself. -/
def appendFormatLoop (t : Time) : Nat → Bytes → Bytes → Bytes
  | 0, b, _ => b
  | fuel + 1, b, layout =>
    if layout = [] then b
    else
      match nextStdChunk layout with
      | (pre, none, _) => b ++ pre
      | (pre, some std, suffix) => appendFormatLoop t fuel (appendStd t (b ++ pre) std) suffix

/-- The method `Time.AppendFormat`: every round of the loop with an element
consumes at least one byte of the layout, so its length bounds the rounds. -/
def Time.AppendFormat (t : Time) (b : Bytes) (layout : Bytes) : Bytes :=
  appendFormatLoop t (layout.length + 1) b layout

/-- The constant `time.RFC3339`. -/
def RFC3339 : Bytes := bytes "2006-01-02T15:04:05Z07:00"

/-! ## `io`, `fmt`, `os`, `log`: the calls the program makes -/

/-- The pair `(n int, err error)` returned by a `Write`. -/
abbrev WriteResult := Int × Option String

/-- An `io.Writer`: a value of type `W` whose `Write` method acts on a store
of type `σ` (what has reached the writer so far). -/
class IoWriter (W : Type) (σ : outParam Type) where
  Write : W → Bytes → σ → WriteResult × σ

/-- A test double for `io.Writer`: it records every buffer it is given and
answers with `reply`. -/
structure Recorder where
  reply : Bytes → WriteResult

instance : IoWriter Recorder (List Bytes) where
  Write r buf received := (r.reply buf, received ++ [buf])

/-- The function `fmt.Sprintf` for the verbs `%s` (0x25 0x73) and `%%`, with
string operands; any other verb is outside this fragment and is copied. -/
def sprintfAux : List Char → List String → List Char
  | [] , _ => []
  | [c], _ => [c]
  | c :: d :: rest, args =>
    if c.toNat = 0x25 ∧ d.toNat = 0x73 then
      match args with
      | a :: as => a.toList ++ sprintfAux rest as
      | [] => "%!s(MISSING)".toList ++ sprintfAux rest []
    else if c.toNat = 0x25 ∧ d.toNat = 0x25 then c :: sprintfAux rest args
    else c :: sprintfAux (d :: rest) args

/-- The function `fmt.Sprintf`. -/
def Sprintf (format : String) (args : List String) : String :=
  String.mk (sprintfAux format.toList args)

/-- Flags of `os.OpenFile`. -/
inductive OpenFlag where
  | O_RDONLY | O_WRONLY | O_RDWR | O_APPEND | O_CREATE | O_EXCL | O_SYNC | O_TRUNC
  deriving Repr, DecidableEq

/-- The constant `os.ModeAppend` (`1 << 30`). -/
def ModeAppend : Nat := 2 ^ 30

/-- An open file (`*os.File`, not nil): standard error, or a file opened by
name with the given flags and permission bits. -/
inductive File where
  | Stderr
  | opened (name : String) (flag : List OpenFlag) (perm : Nat)
  deriving Repr, DecidableEq

/-- An error of package `os`: its text and whether `os.IsNotExist` holds. -/
structure OsError where
  msg : String
  notExist : Bool
  deriving Repr, DecidableEq

/-- The answers of the operating system: the error (if any) of `os.Stat` and
of an open with the given flags and permission bits. -/
structure FileSystem where
  stat : String → Option OsError
  openFile : String → List OpenFlag → Nat → Option OsError

/-- The function `os.IsNotExist`. -/
def IsNotExist (err : Option OsError) : Bool :=
  match err with
  | some e => e.notExist
  | none => false

/-- The text of an error under `%s` (its `Error()`; `%!s(<nil>)` for nil). -/
def errorString (err : Option OsError) : String :=
  match err with
  | some e => e.msg
  | none => "%!s(<nil>)"

/-- Severity thresholds (`wlog.Level`): `DEBUG < INFO < WARN < ERROR`. -/
inductive Level where
  | DEBUG | INFO | WARN | ERROR
  deriving Repr, DecidableEq

/-- Position of a level in the order `DEBUG < INFO < WARN < ERROR`. -/
def Level.rank : Level → Nat
  | Level.DEBUG => 1
  | Level.INFO => 2
  | Level.WARN => 3
  | Level.ERROR => 4

instance : LE Level := ⟨fun a b => a.rank ≤ b.rank⟩

instance (a b : Level) : Decidable (a ≤ b) := inferInstanceAs (Decidable (a.rank ≤ b.rank))

/-- The value `wlog.NewWriter(w)`: the level filter in front of `w`. -/
structure WlogWriter (W : Type) where
  w : W
  deriving Repr, DecidableEq

/-- The function `wlog.NewWriter`. -/
def wlog.NewWriter {W : Type} (w : W) : WlogWriter W := { w := w }

/-! ## `logger/logger.go` -/

/-- The constant `timeLayoutDefault = time.RFC3339 + " I! "`. -/
def timeLayoutDefault : Bytes := RFC3339 ++ bytes " I! "

/-- The constant `timeLayoutSpace = time.RFC3339 + " "`. -/
def timeLayoutSpace : Bytes := RFC3339 ++ bytes " "

/-- The type `telegrafLog`. -/
structure telegrafLog (W : Type) where
  writer : W
  deriving Repr, DecidableEq

/-- The function `newTelegrafWriter`: a logging-wrapped writer. -/
def newTelegrafWriter {W : Type} (w : W) : telegrafLog (WlogWriter W) :=
  { writer := wlog.NewWriter w }

/-- The function `prependTimeFormat`.  The two arms of `if max < bufSize`
differ in the capacity of the empty buffer only. -/
def prependTimeFormat (t : Time) (layout : Bytes) (bs : Bytes) : Bytes :=
  let bufSize := 64
  let max := layout.length + 10
  let b : Bytes := if max < bufSize then [] else []
  let b := t.AppendFormat b layout
  b ++ bs

/-- The method `telegrafLog.Write`; `now` is the value of `time.Now()`. -/
def telegrafLog.Write {W σ : Type} [IoWriter W σ] (t : telegrafLog W) (now : Time) (b : Bytes) :
    σ → WriteResult × σ :=
  let tm := now.UTC
  let line :=
    if !prefixRegex.Match b then prependTimeFormat tm timeLayoutDefault b
    else prependTimeFormat tm timeLayoutSpace b
  IoWriter.Write t.writer line

/-- The output of the standard logger: standard error until `log.SetOutput`,
then the installed writer. -/
inductive LogOutput where
  | default
  | writer (w : telegrafLog (WlogWriter (Option File)))
  deriving Repr, DecidableEq

/-- A call that leaves the package. -/
inductive Call where
  | logSetFlags (flag : Nat)
  | wlogSetLevel (l : Level)
  | osStat (name : String)
  | osCreate (name : String)
  | osOpenFile (name : String) (flag : List OpenFlag) (perm : Nat)
  | logPrintf (out : LogOutput) (text : String)
  | logSetOutput (w : LogOutput)
  deriving Repr, DecidableEq

/-- The process-wide state the program touches: the threshold of `wlog`, the
flags and the output of the standard logger, and the calls made so far. -/
structure World where
  level : Level
  flags : Nat
  output : LogOutput
  calls : List Call
  deriving Repr, DecidableEq

/-- The function `log.SetFlags`. -/
def log.SetFlags (flag : Nat) (w : World) : World :=
  { w with flags := flag, calls := w.calls ++ [Call.logSetFlags flag] }

/-- The function `wlog.SetLevel`. -/
def wlog.SetLevel (l : Level) (w : World) : World :=
  { w with level := l, calls := w.calls ++ [Call.wlogSetLevel l] }

/-- The function `os.Stat`, its error only. -/
def os.Stat (fs : FileSystem) (name : String) (w : World) : Option OsError × World :=
  (fs.stat name, { w with calls := w.calls ++ [Call.osStat name] })

/-- The function `os.OpenFile`: the file (nil on error) and the error. -/
def os.OpenFile (fs : FileSystem) (name : String) (flag : List OpenFlag) (perm : Nat) (w : World) :
    (Option File × Option OsError) × World :=
  let w := { w with calls := w.calls ++ [Call.osOpenFile name flag perm] }
  match fs.openFile name flag perm with
  | some e => ((none, some e), w)
  | none => ((some (File.opened name flag perm), none), w)

/-- The function `os.Create`, which is
`OpenFile(name, O_RDWR|O_CREATE|O_TRUNC, 0666)`. -/
def os.Create (fs : FileSystem) (name : String) (w : World) :
    (Option File × Option OsError) × World :=
  let flag := [OpenFlag.O_RDWR, OpenFlag.O_CREATE, OpenFlag.O_TRUNC]
  let w := { w with calls := w.calls ++ [Call.osCreate name] }
  match fs.openFile name flag 0o666 with
  | some e => ((none, some e), w)
  | none => ((some (File.opened name flag 0o666), none), w)

/-- The function `log.Printf`: the formatted text goes to the output the
standard logger has at that moment. -/
def log.Printf (format : String) (args : List String) (w : World) : World :=
  { w with calls := w.calls ++ [Call.logPrintf w.output (Sprintf format args)] }

/-- The function `log.SetOutput`. -/
def log.SetOutput (out : telegrafLog (WlogWriter (Option File))) (w : World) : World :=
  { w with output := LogOutput.writer out, calls := w.calls ++ [Call.logSetOutput (LogOutput.writer out)] }

/-- The function `SetupLogging`. -/
def SetupLogging (fs : FileSystem) (debug quiet : Bool) (logfile : String) (w : World) : World :=
  let w := log.SetFlags 0 w
  let w := if debug then wlog.SetLevel Level.DEBUG w else w
  let w := if quiet then wlog.SetLevel Level.ERROR w else w
  let res : Option File × World :=
    if logfile ≠ "" then
      match os.Stat fs logfile w with
      | (err, w) =>
        if IsNotExist err then
          match os.Create fs logfile w with
          | ((oFile, err), w) =>
            if err ≠ none then
              (some File.Stderr,
                log.Printf "E! Unable to create %s (%s), using stderr" [logfile, errorString err] w)
            else (oFile, w)
        else
          match os.OpenFile fs logfile [OpenFlag.O_APPEND, OpenFlag.O_WRONLY] ModeAppend w with
          | ((oFile, err), w) =>
            if err ≠ none then
              (some File.Stderr,
                log.Printf "E! Unable to append to %s (%s), using stderr" [logfile, errorString err] w)
            else (oFile, w)
    else (some File.Stderr, w)
  log.SetOutput (newTelegrafWriter res.1) res.2


/-! ## The level filter of `wlog` -/

/-- Modelled from the spec: the level a marker letter stands for in the
filter of package `wlog` (`github.com/influxdata/wlog`, not part of this
repository): `D`, `I`, `W`, `E`, "ordered D < I < W < E". -/
def wlog.levelOf (c : UInt8) : Option Level :=
  if c = 0x44 then some Level.DEBUG
  else if c = 0x49 then some Level.INFO
  else if c = 0x57 then some Level.WARN
  else if c = 0x45 then some Level.ERROR
  else none

/-- Modelled from the spec: the severity the filter of package `wlog` reads
off a line.  The spec fixes the marker as a letter followed by `!` and says
where the adapter's output carries it, not how the filter finds it; the
model takes the letter in front of the first `!` (0x21) of the line. -/
def wlog.lineLevel : Bytes → Option Level
  | [] => none
  | [_] => none
  | c :: d :: rest => if d = 0x21 then wlog.levelOf c else wlog.lineLevel (d :: rest)

/-- Modelled from the spec: the method `Write` of the filter of package
`wlog`, "drops lines below the configured threshold" and forwards the others
to the destination unchanged.  The store is the threshold (a package variable
of `wlog`) with the store of the destination.  A line that carries no marker
is forwarded; a dropped line is reported as `(0, nil)`; the spec fixes neither
and no statement below depends on them. -/
instance {W σ : Type} [IoWriter W σ] : IoWriter (WlogWriter W) (Level × σ) where
  Write f buf st :=
    match wlog.lineLevel buf with
    | some l =>
      if st.1 ≤ l then ((IoWriter.Write f.w buf st.2).1, (st.1, (IoWriter.Write f.w buf st.2).2))
      else ((0, none), st)
    | none => ((IoWriter.Write f.w buf st.2).1, (st.1, (IoWriter.Write f.w buf st.2).2))

/-! ## Definitions used to state the properties -/

/-- The four severity markers `D!`, `I!`, `W!`, `E!`. -/
def markers : List Bytes := [[0x44, 0x21], [0x49, 0x21], [0x57, 0x21], [0x45, 0x21]]

/-- The RFC3339 text of an instant in UTC: `t.UTC().Format(time.RFC3339)`. -/
def formatRFC3339UTC (now : Time) : Bytes := now.UTC.AppendFormat [] RFC3339

/-- The marker test as a direct check of the first two bytes: at least two
bytes, the first one of `D`, `I`, `W`, `E`, the second `!`. -/
def hasMarker (b : Bytes) : Bool :=
  match b with
  | c :: d :: _ => (c = 0x44 ∨ c = 0x49 ∨ c = 0x57 ∨ c = 0x45) ∧ d = 0x21
  | _ => false

/-- The method `telegrafLog.Write` with the regular expression replaced by
the direct check. -/
def telegrafLog.WriteDirect {W σ : Type} [IoWriter W σ] (t : telegrafLog W) (now : Time)
    (b : Bytes) : σ → WriteResult × σ :=
  let tm := now.UTC
  let line :=
    if !hasMarker b then prependTimeFormat tm timeLayoutDefault b
    else prependTimeFormat tm timeLayoutSpace b
  IoWriter.Write t.writer line

/-- The rounds of the loop of `appendFormat` on a layout: the literal bytes
and the element of each round. -/
def layoutRounds : Nat → Bytes → List (Bytes × Option Std)
  | 0, _ => []
  | fuel + 1, layout =>
    if layout = [] then []
    else
      match nextStdChunk layout with
      | (pre, none, _) => [(pre, none)]
      | (pre, some std, suffix) => (pre, some std) :: layoutRounds fuel suffix

/-- The text the rounds append for the time `t`. -/
def appendRounds (t : Time) (b : Bytes) : List (Bytes × Option Std) → Bytes
  | [] => b
  | (pre, none) :: rest => appendRounds t (b ++ pre) rest
  | (pre, some std) :: rest => appendRounds t (appendStd t (b ++ pre) std) rest

/-- The rounds of the loop on `time.RFC3339`. -/
def roundsRFC3339 : List (Bytes × Option Std) :=
  [([], some Std.stdLongYear), ([0x2D], some Std.stdZeroMonth), ([0x2D], some Std.stdZeroDay),
    ([0x54], some Std.stdHour), ([0x3A], some Std.stdZeroMinute), ([0x3A], some Std.stdZeroSecond),
    ([], some Std.stdISO8601ColonTZ)]

/-- The calls one run of `SetupLogging` makes: those it adds to the record. -/
def callsMade (fs : FileSystem) (debug quiet : Bool) (logfile : String) (w : World) : List Call :=
  (SetupLogging fs debug quiet logfile w).calls.drop w.calls.length

/-- The calls to `wlog.SetLevel` for the two switches, in program order. -/
def levelCalls (debug quiet : Bool) : List Call :=
  (if debug then [Call.wlogSetLevel Level.DEBUG] else [])
    ++ (if quiet then [Call.wlogSetLevel Level.ERROR] else [])

/-- Is the call a filesystem check, create or open. -/
def Call.touchesFiles : Call → Bool
  | Call.osStat _ => true
  | Call.osCreate _ => true
  | Call.osOpenFile _ _ _ => true
  | _ => false

/-- Is the call a diagnostic line of the standard logger. -/
def Call.isDiagnostic : Call → Bool
  | Call.logPrintf _ _ => true
  | _ => false

/-- The adapter over standard error. -/
def stderrAdapter : LogOutput := LogOutput.writer (newTelegrafWriter (some File.Stderr))

/-- Modelled from the spec: the marker letter of a level, `D`, `I`, `W`,
`E`. -/
def Level.letter : Level → UInt8
  | Level.DEBUG => 0x44
  | Level.INFO => 0x49
  | Level.WARN => 0x57
  | Level.ERROR => 0x45

/-- The bytes `telegrafLog.Write` puts in front of a line: the time in the
layout chosen for the line. -/
def linePrefix (now : Time) (b : Bytes) : Bytes :=
  now.UTC.AppendFormat [] (if !prefixRegex.Match b then timeLayoutDefault else timeLayoutSpace)

/-- A writer that accepts every buffer whole. -/
def acceptAll : Recorder := { reply := fun buf => (buf.length, none) }

/-- A writer that fails on every buffer. -/
def deviceFull : Recorder := { reply := fun _ => (0, some "no space left on device") }

/-- Midnight UTC of 2023-01-01, read in a zone one hour east. -/
def newYear2023 : Time := { sec := 1672531200, nsec := 0, zone := "CET", offset := 3600 }

/-- A filesystem in which nothing exists and nothing can be created. -/
def readOnlyFs : FileSystem :=
  { stat := fun _ => some { msg := "no such file or directory", notExist := true },
    openFile := fun _ _ _ => some { msg := "permission denied", notExist := false } }

/-- A filesystem in which every path exists and can be opened. -/
def plainFs : FileSystem :=
  { stat := fun _ => none,
    openFile := fun _ _ _ => none }

/-- The state of a process that has not configured logging. -/
def freshWorld : World :=
  { level := Level.INFO, flags := 3, output := LogOutput.default, calls := [] }

/-! ## The marker test -/

theorem prefixRegex_eq :
    prefixRegex = Regexp.concat Regexp.beginText
      (Regexp.concat (Regexp.charClass [0x44, 0x49, 0x57, 0x45]) (Regexp.literal 0x21)) := by
  decide

theorem endsFrom_prefixRegex_succ (b : Bytes) (i : Nat) :
    Regexp.endsFrom b prefixRegex (i + 1) = [] := by
  simp [prefixRegex_eq, Regexp.endsFrom]

theorem match_prefixRegex (b : Bytes) :
    prefixRegex.Match b = !(Regexp.endsFrom b prefixRegex 0).isEmpty := by
  unfold Regexp.Match
  rw [List.range_succ_eq_map]
  simp [endsFrom_prefixRegex_succ]

theorem match_eq_hasMarker (b : Bytes) : prefixRegex.Match b = hasMarker b := by
  rw [match_prefixRegex, prefixRegex_eq]
  match b with
  | [] => simp [Regexp.endsFrom, hasMarker]
  | [c] =>
    by_cases h : c = 0x44 ∨ c = 0x49 ∨ c = 0x57 ∨ c = 0x45 <;>
      simp [Regexp.endsFrom, hasMarker, h]
  | c :: d :: rest =>
    by_cases h : c = 0x44 ∨ c = 0x49 ∨ c = 0x57 ∨ c = 0x45 <;>
      by_cases hd : d = 0x21 <;>
      simp [Regexp.endsFrom, hasMarker, h, hd]

theorem hasMarker_iff_take (b : Bytes) : hasMarker b = true ↔ b.take 2 ∈ markers := by
  match b with
  | [] => simp [hasMarker, markers]
  | [c] => simp [hasMarker, markers]
  | c :: d :: rest =>
    simp only [hasMarker, markers, List.take_succ_cons, List.take_zero, List.mem_cons,
      List.cons.injEq, and_true, List.mem_singleton, List.not_mem_nil, or_false,
      decide_eq_true_eq, Bool.decide_and, Bool.decide_or, Bool.and_eq_true, Bool.or_eq_true]
    tauto


/-! ## Formatting the time -/

theorem appendFormatLoop_eq_rounds (t : Time) :
    ∀ (fuel : Nat) (b layout : Bytes),
      appendFormatLoop t fuel b layout = appendRounds t b (layoutRounds fuel layout)
  | 0, b, layout => by simp [appendFormatLoop, layoutRounds, appendRounds]
  | fuel + 1, b, layout => by
    unfold appendFormatLoop layoutRounds
    by_cases h : layout = []
    · simp [h, appendRounds]
    · simp only [h, if_false]
      rcases hc : nextStdChunk layout with ⟨pre, std, suffix⟩
      cases std with
      | none => simp [appendRounds]
      | some std => simp [appendRounds, appendFormatLoop_eq_rounds t fuel]

theorem appendRounds_append (t : Time) :
    ∀ (xs ys : List (Bytes × Option Std)) (b : Bytes),
      appendRounds t b (xs ++ ys) = appendRounds t (appendRounds t b xs) ys
  | [], ys, b => by simp [appendRounds]
  | (pre, none) :: xs, ys, b => by
    simp [appendRounds, appendRounds_append t xs ys]
  | (pre, some std) :: xs, ys, b => by
    simp [appendRounds, appendRounds_append t xs ys]

theorem layoutRounds_RFC3339 : layoutRounds (RFC3339.length + 1) RFC3339 = roundsRFC3339 := by
  decide

theorem layoutRounds_timeLayoutSpace :
    layoutRounds (timeLayoutSpace.length + 1) timeLayoutSpace
      = roundsRFC3339 ++ [([0x20], none)] := by
  decide

theorem layoutRounds_timeLayoutDefault :
    layoutRounds (timeLayoutDefault.length + 1) timeLayoutDefault
      = roundsRFC3339 ++ [([0x20, 0x49, 0x21, 0x20], none)] := by
  decide

theorem appendFormat_RFC3339 (t : Time) :
    t.AppendFormat [] RFC3339 = appendRounds t [] roundsRFC3339 := by
  rw [Time.AppendFormat, appendFormatLoop_eq_rounds, layoutRounds_RFC3339]

theorem appendFormat_timeLayoutSpace (t : Time) :
    t.AppendFormat [] timeLayoutSpace = t.AppendFormat [] RFC3339 ++ [0x20] := by
  rw [appendFormat_RFC3339, Time.AppendFormat, appendFormatLoop_eq_rounds,
    layoutRounds_timeLayoutSpace, appendRounds_append]
  simp [appendRounds]

theorem appendFormat_timeLayoutDefault (t : Time) :
    t.AppendFormat [] timeLayoutDefault = t.AppendFormat [] RFC3339 ++ [0x20, 0x49, 0x21, 0x20] := by
  rw [appendFormat_RFC3339, Time.AppendFormat, appendFormatLoop_eq_rounds,
    layoutRounds_timeLayoutDefault, appendRounds_append]
  simp [appendRounds]

/-- What `telegrafLog.Write` hands to its writer, in terms of the direct
marker test. -/
theorem write_eq {W σ : Type} [IoWriter W σ] (t : telegrafLog W) (now : Time) (b : Bytes) (s : σ) :
    t.Write now b s
      = IoWriter.Write t.writer
          (formatRFC3339UTC now ++ ((if hasMarker b then [0x20] else [0x20, 0x49, 0x21, 0x20]) ++ b)) s := by
  unfold telegrafLog.Write
  simp only [match_eq_hasMarker, prependTimeFormat, ite_self, appendFormat_timeLayoutSpace,
    appendFormat_timeLayoutDefault, formatRFC3339UTC]
  cases hasMarker b <;> simp


/-! ## The loop of `appendFormat` ends before its bound -/

theorem stripBytes_length :
    ∀ (p l suffix : Bytes), stripBytes p l = some suffix → suffix.length + p.length = l.length
  | [], l, suffix, h => by
    simp only [stripBytes, Option.some.injEq] at h
    simp [h]
  | _ :: _, [], suffix, h => by simp [stripBytes] at h
  | p :: ps, c :: l, suffix, h => by
    unfold stripBytes at h
    split at h
    · have := stripBytes_length ps l suffix h
      simp only [List.length_cons]
      omega
    · simp at h

theorem firstMatch_length (l : Bytes) (std : Std) (suffix : Bytes) :
    ∀ (cands : List (String × Std)), (∀ c ∈ cands, bytes c.1 ≠ []) →
      firstMatch l cands = some (std, suffix) → suffix.length < l.length
  | [], _, h => by simp [firstMatch] at h
  | (p, s) :: rest, hne, h => by
    unfold firstMatch at h
    split at h
    · rename_i sfx hs
      simp only [Option.some.injEq, Prod.mk.injEq] at h
      have hl := stripBytes_length _ _ _ hs
      have hp : 0 < (bytes p).length := List.length_pos.mpr (hne (p, s) (by simp))
      rw [← h.2]
      omega
    · exact firstMatch_length l std suffix rest (fun c hc => hne c (List.mem_cons_of_mem _ hc)) h

theorem stdChunkAt_length (layout : Bytes) (std : Std) (suffix : Bytes)
    (h : stdChunkAt layout = some (std, suffix)) : suffix.length < layout.length := by
  cases layout with
  | nil => simp [stdChunkAt] at h
  | cons c rest =>
    unfold stdChunkAt at h
    simp only at h
    have hfm : ∀ cands : List (String × Std), (∀ x ∈ cands, bytes x.1 ≠ []) →
        firstMatch (c :: rest) cands = some (std, suffix) → suffix.length < (c :: rest).length :=
      firstMatch_length (c :: rest) std suffix
    have hdw : ∀ ch : UInt8, (List.dropWhile (fun x => decide (x = ch)) rest).length
        < (c :: rest).length := by
      intro ch
      have := (List.dropWhile_sublist (fun x => decide (x = ch)) (l := rest)).length_le
      simp only [List.length_cons]
      omega
    by_cases hc : c = 0x4A
    · rw [if_pos hc] at h
      split at h
      · rename_i sfx _ hs
        simp only [Option.some.injEq, Prod.mk.injEq] at h
        have hl := stripBytes_length _ _ _ hs
        have hp : 0 < (bytes "January").length := by decide
        rw [← h.2]
        omega
      · rename_i sfx _ hs
        split at h
        · simp at h
        · simp only [Option.some.injEq, Prod.mk.injEq] at h
          have hl := stripBytes_length _ _ _ hs
          have hp : 0 < (bytes "Jan").length := by decide
          rw [← h.2]
          omega
      · simp at h
    rw [if_neg hc] at h
    clear hc
    by_cases hc : c = 0x4D
    · rw [if_pos hc] at h
      split at h
      · rename_i sfx _ hs
        simp only [Option.some.injEq, Prod.mk.injEq] at h
        have hl := stripBytes_length _ _ _ hs
        have hp : 0 < (bytes "Monday").length := by decide
        rw [← h.2]
        omega
      · rename_i sfx _ hs
        split at h
        · simp at h
        · simp only [Option.some.injEq, Prod.mk.injEq] at h
          have hl := stripBytes_length _ _ _ hs
          have hp : 0 < (bytes "Mon").length := by decide
          rw [← h.2]
          omega
      · exact hfm _ (by decide) h
    rw [if_neg hc] at h
    clear hc
    by_cases hc : c = 0x30
    · rw [if_pos hc] at h
      exact hfm _ (by decide) h
    rw [if_neg hc] at h
    clear hc
    by_cases hc : c = 0x31
    · rw [if_pos hc] at h
      split at h
      · rename_i sfx hs
        simp only [Option.some.injEq, Prod.mk.injEq] at h
        have hl := stripBytes_length _ _ _ hs
        have hp : 0 < (bytes "15").length := by decide
        rw [← h.2]
        omega
      · simp only [Option.some.injEq, Prod.mk.injEq] at h
        rw [← h.2]
        simp
    rw [if_neg hc] at h
    clear hc
    by_cases hc : c = 0x32
    · rw [if_pos hc] at h
      split at h
      · rename_i sfx hs
        simp only [Option.some.injEq, Prod.mk.injEq] at h
        have hl := stripBytes_length _ _ _ hs
        have hp : 0 < (bytes "2006").length := by decide
        rw [← h.2]
        omega
      · simp only [Option.some.injEq, Prod.mk.injEq] at h
        rw [← h.2]
        simp
    rw [if_neg hc] at h
    clear hc
    by_cases hc : c = 0x5F
    · rw [if_pos hc] at h
      exact hfm _ (by decide) h
    rw [if_neg hc] at h
    clear hc
    by_cases hc : c = 0x33
    · rw [if_pos hc] at h
      simp only [Option.some.injEq, Prod.mk.injEq] at h
      rw [← h.2]
      simp
    rw [if_neg hc] at h
    clear hc
    by_cases hc : c = 0x34
    · rw [if_pos hc] at h
      simp only [Option.some.injEq, Prod.mk.injEq] at h
      rw [← h.2]
      simp
    rw [if_neg hc] at h
    clear hc
    by_cases hc : c = 0x35
    · rw [if_pos hc] at h
      simp only [Option.some.injEq, Prod.mk.injEq] at h
      rw [← h.2]
      simp
    rw [if_neg hc] at h
    clear hc
    by_cases hc : c = 0x50
    · rw [if_pos hc] at h
      exact hfm _ (by decide) h
    rw [if_neg hc] at h
    clear hc
    by_cases hc : c = 0x70
    · rw [if_pos hc] at h
      exact hfm _ (by decide) h
    rw [if_neg hc] at h
    clear hc
    by_cases hc : c = 0x2D
    · rw [if_pos hc] at h
      exact hfm _ (by decide) h
    rw [if_neg hc] at h
    clear hc
    by_cases hc : c = 0x5A
    · rw [if_pos hc] at h
      exact hfm _ (by decide) h
    rw [if_neg hc] at h
    clear hc
    split at h
    · split at h
      · split at h
        · split at h
          · simp at h
          · split at h
            · simp only [Option.some.injEq, Prod.mk.injEq] at h
              rw [← h.2]
              exact hdw _
            · simp only [Option.some.injEq, Prod.mk.injEq] at h
              rw [← h.2]
              exact hdw _
        · simp at h
      · simp at h
    · simp at h

theorem nextStdChunk_length :
    ∀ (layout pre suffix : Bytes) (std : Std),
      nextStdChunk layout = (pre, some std, suffix) → suffix.length < layout.length
  | [], pre, suffix, std, h => by simp [nextStdChunk] at h
  | c :: rest, pre, suffix, std, h => by
    unfold nextStdChunk at h
    split at h
    · rename_i sfx hs
      simp only [Prod.mk.injEq, Option.some.injEq] at h
      split at hs
      · have hl := stripBytes_length _ _ _ hs
        have hp : 0 < (bytes "_2006").length := by decide
        rw [← h.2.2]
        omega
      · simp at hs
    · split at h
      · rename_i s sfx hs
        simp only [Prod.mk.injEq, Option.some.injEq] at h
        have := stdChunkAt_length _ _ _ hs
        rw [← h.2.2]
        exact this
      · split at h
        rename_i p s sfx hs
        simp only [Prod.mk.injEq] at h
        have := nextStdChunk_length rest p sfx std (by rw [hs, h.2.1])
        rw [← h.2.2]
        simp only [List.length_cons]
        omega

/-- Any bound above the length of the layout gives the loop of `appendFormat`
the same result: the loop ends because the layout is used up, not because
the bound is reached. -/
theorem appendFormatLoop_fuel (t : Time) :
    ∀ (fuel : Nat) (b layout : Bytes), layout.length < fuel →
      appendFormatLoop t fuel b layout = appendFormatLoop t (layout.length + 1) b layout
  | 0, _, _, h => by omega
  | fuel + 1, b, layout, h => by
    unfold appendFormatLoop
    by_cases hl : layout = []
    · simp [hl]
    · simp only [hl, if_false]
      rcases hc : nextStdChunk layout with ⟨pre, std, suffix⟩
      cases std with
      | none => rfl
      | some std =>
        have hlen := nextStdChunk_length layout pre suffix std hc
        simp only
        rw [appendFormatLoop_fuel t fuel _ suffix (by omega),
          appendFormatLoop_fuel t layout.length _ suffix hlen]

/-! ## The bytes of a timestamp -/

theorem utod_ne_bang (d : Nat) : utod d ≠ 0x21 := by
  have h : ∀ k < 10, (0x30 + k).toUInt8 ≠ 0x21 := by decide
  exact h (d % 10) (Nat.mod_lt _ (by decide))

theorem digitsAux_no_bang :
    ∀ (fuel u : Nat) (acc : Bytes), (∀ x ∈ acc, x ≠ 0x21) → ∀ x ∈ digitsAux fuel u acc, x ≠ 0x21
  | 0, u, acc, hacc, x, hx => by
    simp only [digitsAux, List.mem_cons] at hx
    rcases hx with rfl | hx
    · exact utod_ne_bang u
    · exact hacc x hx
  | fuel + 1, u, acc, hacc, x, hx => by
    have hcons : ∀ y ∈ utod u :: acc, y ≠ 0x21 := by
      intro y hy
      rcases List.mem_cons.mp hy with rfl | hy
      · exact utod_ne_bang u
      · exact hacc y hy
    unfold digitsAux at hx
    split at hx
    · exact hcons x hx
    · exact digitsAux_no_bang fuel (u / 10) (utod u :: acc) hcons x hx

theorem appendInt_no_bang (b : Bytes) (v : Int) (width : Nat) (hb : ∀ x ∈ b, x ≠ 0x21) :
    ∀ x ∈ appendInt b v width, x ≠ 0x21 := by
  intro x hx
  simp only [appendInt, List.mem_append, List.mem_replicate] at hx
  rcases hx with ((hx | hx) | hx) | hx
  · exact hb x hx
  · split at hx
    · rw [List.mem_singleton.mp hx]; decide
    · simp at hx
  · rw [hx.2]; decide
  · exact digitsAux_no_bang _ _ [] (by simp) x hx

theorem append_byte_no_bang (b : Bytes) (c : UInt8) (hc : c ≠ 0x21) (hb : ∀ x ∈ b, x ≠ 0x21) :
    ∀ x ∈ b ++ [c], x ≠ 0x21 := by
  intro x hx
  rcases List.mem_append.mp hx with hx | hx
  · exact hb x hx
  · rw [List.mem_singleton.mp hx]; exact hc

theorem UTC_offset (now : Time) : now.UTC.offset = 0 := rfl

/-- The fields of a timestamp: year, month, day, `T`, hour, minute, second,
`Z`. -/
theorem formatRFC3339UTC_eq (now : Time) :
    formatRFC3339UTC now
      = appendInt (appendInt (appendInt (appendInt (appendInt (appendInt [] now.UTC.Year 4
          ++ [0x2D]) now.UTC.Month 2 ++ [0x2D]) now.UTC.Day 2 ++ [0x54]) now.UTC.Hour 2
          ++ [0x3A]) now.UTC.Minute 2 ++ [0x3A]) now.UTC.Second 2 ++ [0x5A] := by
  rw [formatRFC3339UTC, appendFormat_RFC3339]
  unfold roundsRFC3339
  simp only [appendRounds, appendStd, UTC_offset, if_true, List.nil_append, List.append_nil]

/-- A timestamp holds digits, `-`, `T`, `:` and `Z`: never a `!`. -/
theorem formatRFC3339UTC_no_bang (now : Time) : ∀ x ∈ formatRFC3339UTC now, x ≠ 0x21 := by
  rw [formatRFC3339UTC_eq]
  apply append_byte_no_bang _ _ (by decide)
  apply appendInt_no_bang
  apply append_byte_no_bang _ _ (by decide)
  apply appendInt_no_bang
  apply append_byte_no_bang _ _ (by decide)
  apply appendInt_no_bang
  apply append_byte_no_bang _ _ (by decide)
  apply appendInt_no_bang
  apply append_byte_no_bang _ _ (by decide)
  apply appendInt_no_bang
  apply append_byte_no_bang _ _ (by decide)
  apply appendInt_no_bang
  simp

/-! ## The filter on the adapter's output -/

theorem lineLevel_skip :
    ∀ (ts : Bytes) (h : UInt8) (tail : Bytes), (∀ x ∈ ts, x ≠ 0x21) → h ≠ 0x21 →
      wlog.lineLevel (ts ++ h :: tail) = wlog.lineLevel (h :: tail)
  | [], h, tail, _, _ => rfl
  | [a], h, tail, _, hh => by
    simp [wlog.lineLevel, hh]
  | a :: a' :: ts, h, tail, hts, hh => by
    have ha' : a' ≠ 0x21 := hts a' (by simp)
    have ih := lineLevel_skip (a' :: ts) h tail (fun x hx => hts x (List.mem_cons_of_mem _ hx)) hh
    simp only [List.cons_append] at ih ⊢
    rw [wlog.lineLevel]
    simp [ha', ih]

/-- The severity the filter reads off a timestamped line is that of the
letter after the timestamp and the space. -/
theorem lineLevel_stamped (now : Time) (c : UInt8) (rest : Bytes) (hc : c ≠ 0x21) :
    wlog.lineLevel (formatRFC3339UTC now ++ 0x20 :: c :: 0x21 :: rest) = wlog.levelOf c := by
  rw [lineLevel_skip _ _ _ (formatRFC3339UTC_no_bang now) (by decide)]
  simp [wlog.lineLevel, hc]


/-! ## `SetupLogging` -/

theorem sprintf_create (a b : String) :
    Sprintf "E! Unable to create %s (%s), using stderr" [a, b]
      = "E! " ++ ("Unable to create " ++ (a ++ (" (" ++ (b ++ "), using stderr")))) := by
  rfl

theorem sprintf_append (a b : String) :
    Sprintf "E! Unable to append to %s (%s), using stderr" [a, b]
      = "E! " ++ ("Unable to append to " ++ (a ++ (" (" ++ (b ++ "), using stderr")))) := by
  rfl

theorem setupLogging_calls (fs : FileSystem) (debug quiet : Bool) (logfile : String) (w : World) :
    (SetupLogging fs debug quiet logfile w).calls = w.calls ++ callsMade fs debug quiet logfile w := by
  unfold callsMade SetupLogging
  cases debug <;> cases quiet <;> by_cases h : logfile = "" <;>
    cases hs : IsNotExist (fs.stat logfile) <;>
    cases ho : fs.openFile logfile [OpenFlag.O_APPEND, OpenFlag.O_WRONLY] ModeAppend <;>
    cases hc : fs.openFile logfile [OpenFlag.O_RDWR, OpenFlag.O_CREATE, OpenFlag.O_TRUNC] 0o666 <;>
    simp [log.SetFlags, wlog.SetLevel, os.Stat, os.Create, os.OpenFile, log.Printf,
      log.SetOutput, h, hs, ho, hc]

theorem callsMade_empty (fs : FileSystem) (debug quiet : Bool) (w : World) :
    callsMade fs debug quiet "" w
      = [Call.logSetFlags 0] ++ levelCalls debug quiet ++ [Call.logSetOutput stderrAdapter] := by
  unfold callsMade SetupLogging
  cases debug <;> cases quiet <;>
    simp [log.SetFlags, wlog.SetLevel, log.SetOutput, levelCalls, stderrAdapter]


theorem linePrefix_eq (now : Time) (b : Bytes) :
    linePrefix now b
      = formatRFC3339UTC now ++ (if hasMarker b then [0x20] else [0x20, 0x49, 0x21, 0x20]) := by
  unfold linePrefix
  rw [match_eq_hasMarker]
  cases hasMarker b <;>
    simp [appendFormat_timeLayoutSpace, appendFormat_timeLayoutDefault, formatRFC3339UTC]

theorem write_eq_linePrefix {W σ : Type} [IoWriter W σ] (t : telegrafLog W) (now : Time)
    (b : Bytes) (s : σ) :
    t.Write now b s = IoWriter.Write t.writer (linePrefix now b ++ b) s := by
  rw [write_eq, linePrefix_eq, List.append_assoc]

/-! ## The properties -/

/-- Sample runs of `Write` on a writer that records what it is given. -/
theorem write_samples :
    (telegrafLog.mk acceptAll).Write newYear2023 (bytes "W! hi") []
      = ((26, none), [bytes "2023-01-01T00:00:00Z W! hi"]) ∧
    (telegrafLog.mk acceptAll).Write newYear2023 (bytes "") []
      = ((24, none), [bytes "2023-01-01T00:00:00Z I! "]) ∧
    (telegrafLog.mk acceptAll).Write newYear2023 (bytes " E! x") []
      = ((29, none), [bytes "2023-01-01T00:00:00Z I!  E! x"]) ∧
    (telegrafLog.mk acceptAll).Write newYear2023 (bytes "E") []
      = ((25, none), [bytes "2023-01-01T00:00:00Z I! E"]) ∧
    (telegrafLog.mk deviceFull).Write newYear2023 (bytes "E! x") [bytes "earlier"]
      = ((0, some "no space left on device"), [bytes "earlier", bytes "2023-01-01T00:00:00Z E! x"]) := by
  decide


/-- C1: for a line that begins with one of the markers `D!`, `I!`, `W!`,
`E!`, `telegrafLog.Write` hands its writer the RFC3339 UTC timestamp, one
space, and the line unchanged, with no marker inserted. -/
theorem write_marked_line {W σ : Type} [IoWriter W σ] (t : telegrafLog W) (now : Time)
    (b : Bytes) (s : σ) (hb : b.take 2 ∈ markers) :
    t.Write now b s = IoWriter.Write t.writer (formatRFC3339UTC now ++ [0x20] ++ b) s := by
  rw [write_eq, (hasMarker_iff_take b).mpr hb]
  simp

theorem write_marked_line_witness :
    (bytes "W! hi").take 2 ∈ markers ∧
      (telegrafLog.mk acceptAll).Write newYear2023 (bytes "W! hi") []
        = IoWriter.Write acceptAll (formatRFC3339UTC newYear2023 ++ [0x20] ++ bytes "W! hi") [] :=
  ⟨by decide, write_marked_line (telegrafLog.mk acceptAll) newYear2023 (bytes "W! hi") [] (by decide)⟩

/-- C2: for a line that does not begin with one of the four markers,
`telegrafLog.Write` hands its writer the RFC3339 UTC timestamp, the four
bytes ` I! `, and the line unchanged. -/
theorem write_unmarked_line {W σ : Type} [IoWriter W σ] (t : telegrafLog W) (now : Time)
    (b : Bytes) (s : σ) (hb : b.take 2 ∉ markers) :
    t.Write now b s
      = IoWriter.Write t.writer (formatRFC3339UTC now ++ [0x20, 0x49, 0x21, 0x20] ++ b) s := by
  have h : hasMarker b = false := by
    cases hm : hasMarker b
    · rfl
    · exact absurd ((hasMarker_iff_take b).mp hm) hb
  rw [write_eq, h]
  simp

theorem write_unmarked_line_witness :
    ((bytes "").take 2 ∉ markers ∧
      (telegrafLog.mk acceptAll).Write newYear2023 (bytes "") []
        = IoWriter.Write acceptAll
            (formatRFC3339UTC newYear2023 ++ [0x20, 0x49, 0x21, 0x20] ++ bytes "") []) ∧
    ((bytes "E").take 2 ∉ markers ∧
      (telegrafLog.mk acceptAll).Write newYear2023 (bytes "E") []
        = IoWriter.Write acceptAll
            (formatRFC3339UTC newYear2023 ++ [0x20, 0x49, 0x21, 0x20] ++ bytes "E") []) ∧
    ((bytes "d! lower").take 2 ∉ markers ∧
      (telegrafLog.mk acceptAll).Write newYear2023 (bytes "d! lower") []
        = IoWriter.Write acceptAll
            (formatRFC3339UTC newYear2023 ++ [0x20, 0x49, 0x21, 0x20] ++ bytes "d! lower") []) ∧
    ((bytes " E! late").take 2 ∉ markers ∧
      (telegrafLog.mk acceptAll).Write newYear2023 (bytes " E! late") []
        = IoWriter.Write acceptAll
            (formatRFC3339UTC newYear2023 ++ [0x20, 0x49, 0x21, 0x20] ++ bytes " E! late") []) :=
  ⟨⟨by decide, write_unmarked_line (telegrafLog.mk acceptAll) newYear2023 (bytes "") [] (by decide)⟩,
    ⟨by decide, write_unmarked_line (telegrafLog.mk acceptAll) newYear2023 (bytes "E") [] (by decide)⟩,
    ⟨by decide,
      write_unmarked_line (telegrafLog.mk acceptAll) newYear2023 (bytes "d! lower") [] (by decide)⟩,
    ⟨by decide,
      write_unmarked_line (telegrafLog.mk acceptAll) newYear2023 (bytes " E! late") [] (by decide)⟩⟩

/-- C3: `telegrafLog.Write` calls its writer once, with the prefix followed
by the line, and returns the pair that call returned: an error comes back
unchanged, and when the writer takes the whole buffer the count is the length
of the prefix plus the length of the line. -/
theorem write_result {W σ : Type} [IoWriter W σ] (t : telegrafLog W) (now : Time) (b : Bytes)
    (s : σ) :
    t.Write now b s = IoWriter.Write t.writer (linePrefix now b ++ b) s ∧
    (∀ (r : Recorder) (received : List Bytes),
      (telegrafLog.mk r).Write now b received
        = (r.reply (linePrefix now b ++ b), received ++ [linePrefix now b ++ b])) ∧
    (∀ (n : Int) (err : String),
      (IoWriter.Write t.writer (linePrefix now b ++ b) s).1 = (n, some err) →
        (t.Write now b s).1 = (n, some err)) ∧
    ((IoWriter.Write t.writer (linePrefix now b ++ b) s).1
        = (((linePrefix now b ++ b).length : Int), none) →
      (t.Write now b s).1 = (((linePrefix now b).length : Int) + (b.length : Int), none)) := by
  refine ⟨write_eq_linePrefix t now b s, ?_, ?_, ?_⟩
  · intro r received
    rw [write_eq_linePrefix]
    rfl
  · intro n err h
    rw [write_eq_linePrefix, h]
  · intro h
    rw [write_eq_linePrefix, h]
    simp

theorem write_result_witness :
    (IoWriter.Write deviceFull (linePrefix newYear2023 (bytes "W! hi") ++ bytes "W! hi") []).1
        = (0, some "no space left on device") ∧
    ((telegrafLog.mk deviceFull).Write newYear2023 (bytes "W! hi") []).1
        = (0, some "no space left on device") ∧
    (IoWriter.Write acceptAll (linePrefix newYear2023 (bytes "hi") ++ bytes "hi") []).1
        = (((linePrefix newYear2023 (bytes "hi") ++ bytes "hi").length : Int), none) ∧
    ((telegrafLog.mk acceptAll).Write newYear2023 (bytes "hi") []).1
        = (((linePrefix newYear2023 (bytes "hi")).length : Int) + ((bytes "hi").length : Int), none) :=
  ⟨by decide,
    (write_result (telegrafLog.mk deviceFull) newYear2023 (bytes "W! hi") []).2.2.1 0
      "no space left on device" (by decide),
    by decide,
    (write_result (telegrafLog.mk acceptAll) newYear2023 (bytes "hi") []).2.2.2 (by decide)⟩

/-- C9, as the code has it: for a line that begins with a marker and a space,
`telegrafLog.Write` hands its writer the RFC3339 UTC timestamp, exactly one
space, and the line; that is never the text with two spaces in between. -/
theorem write_marked_line_one_space {W σ : Type} [IoWriter W σ] (t : telegrafLog W) (now : Time)
    (c : UInt8) (rest : Bytes) (s : σ) (hc : c ∈ [0x44, 0x49, 0x57, 0x45]) :
    t.Write now (c :: 0x21 :: 0x20 :: rest) s
      = IoWriter.Write t.writer (formatRFC3339UTC now ++ 0x20 :: c :: 0x21 :: 0x20 :: rest) s ∧
    formatRFC3339UTC now ++ 0x20 :: c :: 0x21 :: 0x20 :: rest
      ≠ formatRFC3339UTC now ++ 0x20 :: 0x20 :: c :: 0x21 :: 0x20 :: rest := by
  constructor
  · have hm : hasMarker (c :: 0x21 :: 0x20 :: rest) = true := by
      simp only [List.mem_cons, List.mem_singleton, List.not_mem_nil, or_false] at hc
      simp [hasMarker, hc]
    rw [write_eq, hm]
    simp
  · intro h
    have := congrArg List.length h
    simp at this

theorem write_marked_line_one_space_witness :
    (0x45 : UInt8) ∈ [0x44, 0x49, 0x57, 0x45] ∧
      ((telegrafLog.mk acceptAll).Write newYear2023 (0x45 :: 0x21 :: 0x20 :: bytes "x") []
        = IoWriter.Write acceptAll
            (formatRFC3339UTC newYear2023 ++ 0x20 :: 0x45 :: 0x21 :: 0x20 :: bytes "x") [] ∧
      formatRFC3339UTC newYear2023 ++ 0x20 :: 0x45 :: 0x21 :: 0x20 :: bytes "x"
        ≠ formatRFC3339UTC newYear2023 ++ 0x20 :: 0x20 :: 0x45 :: 0x21 :: 0x20 :: bytes "x") :=
  ⟨by decide,
    write_marked_line_one_space (telegrafLog.mk acceptAll) newYear2023 0x45 (bytes "x") []
      (by decide)⟩

/-- C9 as stated fails: on the line `E! x` at 2023-01-01T00:00:00Z the writer
receives `2023-01-01T00:00:00Z E! x`, which is not the timestamp, two spaces
and the line. -/
theorem write_marked_line_two_spaces_fails :
    (bytes "E! x").take 3 = [0x45, 0x21, 0x20] ∧
    (telegrafLog.mk acceptAll).Write newYear2023 (bytes "E! x") []
      = ((25, none), [bytes "2023-01-01T00:00:00Z E! x"]) ∧
    (telegrafLog.mk acceptAll).Write newYear2023 (bytes "E! x") []
      ≠ IoWriter.Write acceptAll
          (formatRFC3339UTC newYear2023 ++ [0x20] ++ [0x20] ++ bytes "E! x") [] := by
  decide

/-- C10: the regular expression `^[DIWE]!` matches a byte sequence exactly
when it has at least two bytes, the first one of `D`, `I`, `W`, `E` and the
second `!`; the direct check of the first two bytes gives the same result and
the same `Write`; only the first two bytes count, and a line that starts with
a newline is unmarked whatever follows. -/
theorem marker_test_direct (b : Bytes) :
    (prefixRegex.Match b = true ↔
      2 ≤ b.length ∧ b.get? 0 ∈ [some 0x44, some 0x49, some 0x57, some 0x45] ∧
        b.get? 1 = some 0x21) ∧
    prefixRegex.Match b = hasMarker b ∧
    (∀ (W σ : Type) [IoWriter W σ] (t : telegrafLog W) (now : Time) (s : σ),
      t.Write now b s = t.WriteDirect now b s) ∧
    prefixRegex.Match b = prefixRegex.Match (b.take 2) ∧
    prefixRegex.Match (0x0A :: b) = false := by
  refine ⟨?_, match_eq_hasMarker b, ?_, ?_, ?_⟩
  · rw [match_eq_hasMarker]
    match b with
    | [] => simp [hasMarker]
    | [c] => simp [hasMarker]
    | c :: d :: rest => simp [hasMarker]
  · intro W σ _ t now s
    unfold telegrafLog.Write telegrafLog.WriteDirect
    rw [match_eq_hasMarker]
  · rw [match_eq_hasMarker, match_eq_hasMarker]
    match b with
    | [] => rfl
    | [c] => rfl
    | c :: d :: rest => rfl
  · rw [match_eq_hasMarker]
    match b with
    | [] => rfl
    | d :: rest => simp [hasMarker]

/-- C4: after `SetupLogging(debug, quiet, logfile)` the threshold is ERROR
when `quiet` is set (also when `debug` is set too), DEBUG when only `debug`
is set, and the prior threshold when neither is. -/
theorem setupLogging_level (fs : FileSystem) (debug quiet : Bool) (logfile : String) (w : World) :
    (SetupLogging fs debug quiet logfile w).level
      = if quiet then Level.ERROR else if debug then Level.DEBUG else w.level := by
  unfold SetupLogging
  cases debug <;> cases quiet <;> by_cases h : logfile = "" <;>
    cases hs : IsNotExist (fs.stat logfile) <;>
    cases ho : fs.openFile logfile [OpenFlag.O_APPEND, OpenFlag.O_WRONLY] ModeAppend <;>
    cases hc : fs.openFile logfile [OpenFlag.O_RDWR, OpenFlag.O_CREATE, OpenFlag.O_TRUNC] 0o666 <;>
    simp [log.SetFlags, wlog.SetLevel, os.Stat, os.Create, os.OpenFile, log.Printf,
      log.SetOutput, h, hs, ho, hc]

/-- C5: for a non-empty path, when the open that `SetupLogging` attempts
fails (the create when the path is reported as not existing, the open for
append otherwise), the run makes exactly one `log.Printf`, its text begins
with `E! `, it goes to the output the logger had before the run and comes
before `log.SetOutput`, and the adapter installed wraps standard error. -/
theorem setupLogging_open_fails (fs : FileSystem) (debug quiet : Bool) (logfile : String)
    (w : World) (e : OsError) (hne : logfile ≠ "")
    (hfail :
      if IsNotExist (fs.stat logfile) then
        fs.openFile logfile [OpenFlag.O_RDWR, OpenFlag.O_CREATE, OpenFlag.O_TRUNC] 0o666 = some e
      else fs.openFile logfile [OpenFlag.O_APPEND, OpenFlag.O_WRONLY] ModeAppend = some e) :
    callsMade fs debug quiet logfile w
      = [Call.logSetFlags 0] ++ levelCalls debug quiet ++
        [Call.osStat logfile,
          if IsNotExist (fs.stat logfile) then Call.osCreate logfile
          else Call.osOpenFile logfile [OpenFlag.O_APPEND, OpenFlag.O_WRONLY] ModeAppend,
          Call.logPrintf w.output
            ("E! " ++ ((if IsNotExist (fs.stat logfile) then "Unable to create "
              else "Unable to append to ") ++ (logfile ++ (" (" ++ (e.msg ++ "), using stderr"))))),
          Call.logSetOutput stderrAdapter] ∧
    (callsMade fs debug quiet logfile w).countP Call.isDiagnostic = 1 ∧
    (SetupLogging fs debug quiet logfile w).output = stderrAdapter ∧
    (SetupLogging fs debug quiet logfile w).calls = w.calls ++ callsMade fs debug quiet logfile w := by
  refine ⟨?_, ?_, ?_, setupLogging_calls fs debug quiet logfile w⟩
  all_goals
    try unfold callsMade
    unfold SetupLogging
    cases hs : IsNotExist (fs.stat logfile) <;> simp [hs] at hfail <;>
      cases debug <;> cases quiet <;>
      simp [log.SetFlags, wlog.SetLevel, os.Stat, os.Create, os.OpenFile, log.Printf,
        log.SetOutput, hne, hs, hfail, levelCalls, stderrAdapter, sprintf_create, sprintf_append,
        errorString, Call.isDiagnostic, List.countP_cons]


theorem setupLogging_open_fails_witness :
    "/var/log/telegraf.log" ≠ "" ∧
    (if IsNotExist (readOnlyFs.stat "/var/log/telegraf.log") then
        readOnlyFs.openFile "/var/log/telegraf.log"
          [OpenFlag.O_RDWR, OpenFlag.O_CREATE, OpenFlag.O_TRUNC] 0o666
          = some { msg := "permission denied", notExist := false }
      else readOnlyFs.openFile "/var/log/telegraf.log" [OpenFlag.O_APPEND, OpenFlag.O_WRONLY]
          ModeAppend = some { msg := "permission denied", notExist := false }) ∧
    (callsMade readOnlyFs true true "/var/log/telegraf.log" freshWorld).countP Call.isDiagnostic = 1 ∧
    (SetupLogging readOnlyFs true true "/var/log/telegraf.log" freshWorld).output = stderrAdapter :=
  ⟨by decide, by decide,
    (setupLogging_open_fails readOnlyFs true true "/var/log/telegraf.log" freshWorld
      { msg := "permission denied", notExist := false } (by decide) (by decide)).2.1,
    (setupLogging_open_fails readOnlyFs true true "/var/log/telegraf.log" freshWorld
      { msg := "permission denied", notExist := false } (by decide) (by decide)).2.2.1⟩

/-- C6: for a non-empty path that the check does not report as not existing
(it exists, or `os.Stat` fails for another reason), `SetupLogging` opens it
once, write-only in append mode, and makes no creating or truncating open;
on success the adapter wraps that file, on failure standard error.  For any
path, the create is among the calls exactly when the path is non-empty and
reported as not existing. -/
theorem setupLogging_appends (fs : FileSystem) (debug quiet : Bool) (logfile : String)
    (w : World) :
    (logfile ≠ "" → IsNotExist (fs.stat logfile) = false →
      (callsMade fs debug quiet logfile w).filter Call.touchesFiles
        = [Call.osStat logfile,
            Call.osOpenFile logfile [OpenFlag.O_APPEND, OpenFlag.O_WRONLY] ModeAppend] ∧
      (∀ name, Call.osCreate name ∉ callsMade fs debug quiet logfile w) ∧
      (SetupLogging fs debug quiet logfile w).output
        = (match fs.openFile logfile [OpenFlag.O_APPEND, OpenFlag.O_WRONLY] ModeAppend with
          | none => LogOutput.writer (newTelegrafWriter
              (some (File.opened logfile [OpenFlag.O_APPEND, OpenFlag.O_WRONLY] ModeAppend)))
          | some _ => stderrAdapter)) ∧
    (Call.osCreate logfile ∈ callsMade fs debug quiet logfile w ↔
      logfile ≠ "" ∧ IsNotExist (fs.stat logfile) = true) := by
  constructor
  · intro hne hs
    refine ⟨?_, ?_, ?_⟩
    all_goals
      try unfold callsMade
      unfold SetupLogging
      cases ho : fs.openFile logfile [OpenFlag.O_APPEND, OpenFlag.O_WRONLY] ModeAppend <;>
        cases debug <;> cases quiet <;>
        simp [log.SetFlags, wlog.SetLevel, os.Stat, os.Create, os.OpenFile, log.Printf,
          log.SetOutput, hne, hs, ho, stderrAdapter, Call.touchesFiles, List.filter_cons]
  · unfold callsMade SetupLogging
    by_cases hne : logfile = "" <;>
      cases hs : IsNotExist (fs.stat logfile) <;>
      cases ho : fs.openFile logfile [OpenFlag.O_APPEND, OpenFlag.O_WRONLY] ModeAppend <;>
      cases hc : fs.openFile logfile [OpenFlag.O_RDWR, OpenFlag.O_CREATE, OpenFlag.O_TRUNC] 0o666 <;>
      cases debug <;> cases quiet <;>
      simp [log.SetFlags, wlog.SetLevel, os.Stat, os.Create, os.OpenFile, log.Printf,
        log.SetOutput, hne, hs, ho, hc]

theorem setupLogging_appends_witness :
    "telegraf.log" ≠ "" ∧ IsNotExist (plainFs.stat "telegraf.log") = false ∧
    (callsMade plainFs false false "telegraf.log" freshWorld).filter Call.touchesFiles
      = [Call.osStat "telegraf.log",
          Call.osOpenFile "telegraf.log" [OpenFlag.O_APPEND, OpenFlag.O_WRONLY] ModeAppend] ∧
    (∀ name, Call.osCreate name ∉ callsMade plainFs false false "telegraf.log" freshWorld) :=
  ⟨by decide, by decide,
    ((setupLogging_appends plainFs false false "telegraf.log" freshWorld).1
      (by decide) (by decide)).1,
    ((setupLogging_appends plainFs false false "telegraf.log" freshWorld).1
      (by decide) (by decide)).2.1⟩

/-- C7: `SetupLogging(debug, quiet, "")` installs the adapter over standard
error; the run makes no filesystem check, create or open and no
`log.Printf`: its calls are `log.SetFlags(0)`, the `wlog.SetLevel` calls for
the switches, and `log.SetOutput`. -/
theorem setupLogging_empty_logfile (fs : FileSystem) (debug quiet : Bool) (w : World) :
    (SetupLogging fs debug quiet "" w).output = stderrAdapter ∧
    callsMade fs debug quiet "" w
      = [Call.logSetFlags 0] ++ levelCalls debug quiet ++ [Call.logSetOutput stderrAdapter] ∧
    (∀ c ∈ callsMade fs debug quiet "" w, c.touchesFiles = false ∧ c.isDiagnostic = false) := by
  refine ⟨?_, callsMade_empty fs debug quiet w, ?_⟩
  · unfold SetupLogging
    cases debug <;> cases quiet <;>
      simp [log.SetFlags, wlog.SetLevel, log.SetOutput, stderrAdapter]
  · rw [callsMade_empty]
    cases debug <;> cases quiet <;>
      simp [levelCalls, Call.touchesFiles, Call.isDiagnostic]


/-- The filter on a line whose severity it reads as `l`, at threshold `L`. -/
theorem wlog_write {W σ : Type} [IoWriter W σ] (dest : W) (buf : Bytes) (L l : Level) (s : σ)
    (h : wlog.lineLevel buf = some l) :
    IoWriter.Write (wlog.NewWriter dest) buf (L, s)
      = if L ≤ l then ((IoWriter.Write dest buf s).1, (L, (IoWriter.Write dest buf s).2))
        else ((0, none), (L, s)) := by
  simp only [IoWriter.Write, h, wlog.NewWriter]

/-- The adapter over the filter, on a line marked with the letter of level
`m`, at threshold `L`. -/
theorem filtered_write {W σ : Type} [IoWriter W σ] (dest : W) (now : Time) (L m : Level)
    (rest : Bytes) (s : σ) :
    (newTelegrafWriter dest).Write now (m.letter :: 0x21 :: rest) (L, s)
      = if L ≤ m then
          ((IoWriter.Write dest (formatRFC3339UTC now ++ 0x20 :: m.letter :: 0x21 :: rest) s).1,
            (L, (IoWriter.Write dest (formatRFC3339UTC now ++ 0x20 :: m.letter :: 0x21 :: rest) s).2))
        else ((0, none), (L, s)) := by
  have hm : hasMarker (m.letter :: 0x21 :: rest) = true := by cases m <;> rfl
  have hl : m.letter ≠ 0x21 := by cases m <;> decide
  have hlev : wlog.levelOf m.letter = some m := by cases m <;> decide
  have hline : wlog.lineLevel (formatRFC3339UTC now ++ 0x20 :: m.letter :: 0x21 :: rest) = some m := by
    rw [lineLevel_stamped now m.letter rest hl, hlev]
  have hw : (newTelegrafWriter dest).writer = wlog.NewWriter dest := rfl
  rw [write_eq, hm, if_pos rfl, List.singleton_append, hw]
  rw [wlog_write dest _ L m s hline]

/-- C8, against the filter as the spec describes it: at the threshold left
by `SetupLogging(true, false, _)` a line that starts with `D!` is forwarded
to the destination; at the one left by `SetupLogging(false, true, _)` a line
that starts with `D!` leaves the destination untouched and one that starts
with `E!` is forwarded; at any threshold `L`, a line marked with the letter
of level `m` is forwarded when `L ≤ m` and leaves the destination untouched
otherwise, in the order `D < I < W < E`. -/
theorem filter_after_setup {W σ : Type} [IoWriter W σ] (dest : W) (fs : FileSystem)
    (logfile : String) (w : World) (now : Time) (rest : Bytes) (s : σ) :
    (newTelegrafWriter dest).Write now (0x44 :: 0x21 :: rest)
        ((SetupLogging fs true false logfile w).level, s)
      = ((IoWriter.Write dest (formatRFC3339UTC now ++ 0x20 :: 0x44 :: 0x21 :: rest) s).1,
          (Level.DEBUG,
            (IoWriter.Write dest (formatRFC3339UTC now ++ 0x20 :: 0x44 :: 0x21 :: rest) s).2)) ∧
    ((newTelegrafWriter dest).Write now (0x44 :: 0x21 :: rest)
        ((SetupLogging fs false true logfile w).level, s)).2 = (Level.ERROR, s) ∧
    (newTelegrafWriter dest).Write now (0x45 :: 0x21 :: rest)
        ((SetupLogging fs false true logfile w).level, s)
      = ((IoWriter.Write dest (formatRFC3339UTC now ++ 0x20 :: 0x45 :: 0x21 :: rest) s).1,
          (Level.ERROR,
            (IoWriter.Write dest (formatRFC3339UTC now ++ 0x20 :: 0x45 :: 0x21 :: rest) s).2)) ∧
    (∀ L m : Level,
      if L ≤ m then
        (newTelegrafWriter dest).Write now (m.letter :: 0x21 :: rest) (L, s)
          = ((IoWriter.Write dest (formatRFC3339UTC now ++ 0x20 :: m.letter :: 0x21 :: rest) s).1,
              (L, (IoWriter.Write dest
                (formatRFC3339UTC now ++ 0x20 :: m.letter :: 0x21 :: rest) s).2))
      else
        ((newTelegrafWriter dest).Write now (m.letter :: 0x21 :: rest) (L, s)).2 = (L, s)) ∧
    (Level.DEBUG ≤ Level.INFO ∧ Level.INFO ≤ Level.WARN ∧ Level.WARN ≤ Level.ERROR ∧
      ¬ Level.INFO ≤ Level.DEBUG ∧ ¬ Level.WARN ≤ Level.INFO ∧ ¬ Level.ERROR ≤ Level.WARN) := by
  have hD : (SetupLogging fs true false logfile w).level = Level.DEBUG := by
    unfold SetupLogging
    by_cases h : logfile = "" <;>
      cases hs : IsNotExist (fs.stat logfile) <;>
      cases ho : fs.openFile logfile [OpenFlag.O_APPEND, OpenFlag.O_WRONLY] ModeAppend <;>
      cases hc : fs.openFile logfile [OpenFlag.O_RDWR, OpenFlag.O_CREATE, OpenFlag.O_TRUNC] 0o666 <;>
      simp [log.SetFlags, wlog.SetLevel, os.Stat, os.Create, os.OpenFile, log.Printf,
        log.SetOutput, h, hs, ho, hc]
  have hE : (SetupLogging fs false true logfile w).level = Level.ERROR := by
    unfold SetupLogging
    by_cases h : logfile = "" <;>
      cases hs : IsNotExist (fs.stat logfile) <;>
      cases ho : fs.openFile logfile [OpenFlag.O_APPEND, OpenFlag.O_WRONLY] ModeAppend <;>
      cases hc : fs.openFile logfile [OpenFlag.O_RDWR, OpenFlag.O_CREATE, OpenFlag.O_TRUNC] 0o666 <;>
      simp [log.SetFlags, wlog.SetLevel, os.Stat, os.Create, os.OpenFile, log.Printf,
        log.SetOutput, h, hs, ho, hc]
  refine ⟨?_, ?_, ?_, ?_, by decide⟩
  · rw [hD]
    have := filtered_write dest now Level.DEBUG Level.DEBUG rest s
    rw [if_pos (by decide)] at this
    exact this
  · rw [hE]
    have := filtered_write dest now Level.ERROR Level.DEBUG rest s
    rw [if_neg (by decide)] at this
    exact congrArg Prod.snd this
  · rw [hE]
    have := filtered_write dest now Level.ERROR Level.ERROR rest s
    rw [if_pos (by decide)] at this
    exact this
  · intro L m
    have := filtered_write dest now L m rest s
    by_cases h : L ≤ m
    · rw [if_pos h] at this ⊢
      exact this
    · rw [if_neg h] at this ⊢
      exact congrArg Prod.snd this

/-- Sample runs of the adapter over the filter. -/
theorem filter_samples :
    ((newTelegrafWriter acceptAll).Write newYear2023 (bytes "D! x")
      ((SetupLogging plainFs false true "a" freshWorld).level, [])).2 = (Level.ERROR, []) ∧
    ((newTelegrafWriter acceptAll).Write newYear2023 (bytes "unmarked")
      (Level.WARN, [])).2 = (Level.WARN, []) ∧
    ((newTelegrafWriter acceptAll).Write newYear2023 (bytes "W! x")
      (Level.WARN, [])).2 = (Level.WARN, [bytes "2023-01-01T00:00:00Z W! x"]) := by
  decide

end Logger
